import Mathlib

/-
Verification development for the workspace-manager CLI.

The Go source is shallowly embedded: Go strings are modelled as lists of
characters (`Str`), every relevant pure string function is transcribed
faithfully, and the three workflows (new / init / remove) are modelled as
deterministic step chains over an oracle environment recording the outcome
of each external command (git, ddev, docker, filesystem).
-/

set_option maxHeartbeats 1000000

/-- A Go string value, modelled as its list of characters. -/
abbrev Str := List Char

/-- Character list of a Lean string literal, used to transcribe Go string
literals into the embedding. -/
def strOf (s : String) : Str := s.data

/-- Model of Go strings.HasPrefix: hasPre s pre is true when pre is a
prefix of s. -/
def hasPre : Str → Str → Bool
  | _, [] => true
  | [], _ :: _ => false
  | c :: cs, p :: ps => p == c && hasPre cs ps

/-- Model of Go strings.TrimPrefix: removes pre from the front of s when
present, otherwise returns s unchanged. -/
def trimPre (s pre : Str) : Str := if hasPre s pre then s.drop pre.length else s

/-- Model of Go strings.Contains: containsSub s sub is true when sub
occurs as a contiguous substring of s. -/
def containsSub (s sub : Str) : Bool :=
  match s with
  | [] => sub.isEmpty
  | c :: t => hasPre (c :: t) sub || containsSub t sub

/-- Model of the nonempty-pattern case of Go strings.Replace with n = 1:
replaces the first occurrence of old in s by new. -/
def replace1Go (s old new : Str) : Str :=
  match s with
  | [] => []
  | c :: t => if hasPre (c :: t) old then new ++ (c :: t).drop old.length else c :: replace1Go t old new

/-- Model of Go strings.Replace(s, old, new, 1), including the empty-old
special case (the empty pattern matches at the start of s). -/
def goReplace1 (s old new : Str) : Str :=
  if old.isEmpty then new ++ s else replace1Go s old new

/-- Model of renameDDEVProject, part_000 lines 838-861, as a pure
transformation of the config-file content: requires the substring
"name: originalName" to occur (Go strings.Contains), and replaces its
first occurrence by "name: identifier-originalName"; otherwise fails
without producing new content. -/
def renameContent (content identifier originalName : Str) : Except Str Str :=
  let oldLine := strOf "name: " ++ originalName
  let newLine := strOf "name: " ++ identifier ++ strOf "-" ++ originalName
  if containsSub content oldLine then Except.ok (goReplace1 content oldLine newLine)
  else Except.error (strOf "could not find name line")

/-- The config file content after renameDDEVProject runs: on error the
function returns before os.WriteFile, so the file keeps its old content. -/
def fileAfterRename (content identifier originalName : Str) : Str :=
  match renameContent content identifier originalName with
  | Except.ok c2 => c2
  | Except.error _ => content

/-- Lines of a string, splitting on the newline character; used to state
the exact-line predicate that the claim attributes to the code. -/
def splitNl : Str → List Str
  | [] => [[]]
  | c :: t =>
    match splitNl t, decide (c = Char.ofNat 10) with
    | r, true => [] :: r
    | [], false => [[c]]
    | h :: rt, false => (c :: h) :: rt

/-- Stated from the words of claim C2: the content contains the exact
line "name: originalName" (a whole line, not merely a substring). -/
def specContainsExactLine (content line : Str) : Bool :=
  (splitNl content).contains line

theorem hasPre_iff (s pre : Str) : hasPre s pre = true ↔ ∃ t, s = pre ++ t := by
  induction pre generalizing s with
  | nil => simp [hasPre]
  | cons p ps ih =>
    cases s with
    | nil => simp [hasPre]
    | cons c cs =>
      simp only [hasPre, Bool.and_eq_true, beq_iff_eq, ih]
      constructor
      · rintro ⟨rfl, t, rfl⟩
        exact ⟨t, rfl⟩
      · rintro ⟨t, ht⟩
        cases ht
        exact ⟨rfl, t, rfl⟩

theorem hasPre_append (pre t : Str) : hasPre (pre ++ t) pre = true := by
  rw [hasPre_iff]
  exact ⟨t, rfl⟩

theorem trimPre_append (pre t : Str) : trimPre (pre ++ t) pre = t := by
  simp [trimPre, hasPre_append, List.drop_left]

theorem containsSub_iff (s sub : Str) :
    containsSub s sub = true ↔ ∃ pre post, s = pre ++ sub ++ post := by
  induction s with
  | nil =>
    simp only [containsSub, List.isEmpty_iff]
    constructor
    · rintro rfl
      exact ⟨[], [], rfl⟩
    · rintro ⟨pre, post, h⟩
      rcases List.append_eq_nil.mp h.symm with ⟨h1, h2⟩
      rcases List.append_eq_nil.mp h1 with ⟨_, h3⟩
      exact h3
  | cons c t ih =>
    simp only [containsSub, Bool.or_eq_true, hasPre_iff, ih]
    constructor
    · rintro (⟨u, hu⟩ | ⟨pre, post, hp⟩)
      · exact ⟨[], u, by simpa using hu⟩
      · exact ⟨c :: pre, post, by simp [hp]⟩
    · rintro ⟨pre, post, hp⟩
      cases pre with
      | nil => exact Or.inl ⟨post, by simpa using hp⟩
      | cons p pt =>
        right
        refine ⟨pt, post, ?_⟩
        have := congrArg List.tail hp
        simpa using this

theorem replace1Go_first (s old new : Str) (hold : old ≠ [])
    (h : containsSub s old = true) :
    ∃ pre post, s = pre ++ old ++ post
      ∧ replace1Go s old new = pre ++ new ++ post
      ∧ ∀ pre2 post2, s = pre2 ++ old ++ post2 → pre.length ≤ pre2.length := by
  induction s with
  | nil =>
    exfalso
    simp only [containsSub, List.isEmpty_iff] at h
    exact hold h
  | cons c t ih =>
    by_cases hp : hasPre (c :: t) old = true
    · rcases (hasPre_iff _ _).mp hp with ⟨u, hu⟩
      refine ⟨[], u, by simpa using hu, ?_, ?_⟩
      · simp [replace1Go, hp, hu, hasPre_append, List.drop_left]
      · intro pre2 post2 _
        simp
    · have hocc : containsSub t old = true := by
        simp only [containsSub, Bool.or_eq_true] at h
        rcases h with h | h
        · exact absurd h hp
        · exact h
      rcases ih hocc with ⟨pre, post, heq, hrep, hmin⟩
      refine ⟨c :: pre, post, by simp [heq], ?_, ?_⟩
      · simp [replace1Go, hp, hrep]
      · intro pre2 post2 h2
        cases pre2 with
        | nil =>
          exfalso
          apply hp
          rw [hasPre_iff]
          exact ⟨post2, by simpa using h2⟩
        | cons p2 pt2 =>
          have ht : t = pt2 ++ old ++ post2 := by
            have := congrArg List.tail h2
            simpa using this
          simpa using Nat.succ_le_succ (hmin pt2 post2 ht)

/-- Claim C2 as stated is false on the code: renameDDEVProject checks with
Go strings.Contains, not for an exact line. The content "xname: foo" lacks
the exact line "name: foo", yet the function succeeds and rewrites the
file (the claim demanded an error and a byte-for-byte unchanged file). -/
theorem c2_counterexample :
    specContainsExactLine (strOf "xname: foo") (strOf "name: foo") = false
    ∧ renameContent (strOf "xname: foo") (strOf "bar") (strOf "foo")
        = Except.ok (strOf "xname: bar-foo")
    ∧ fileAfterRename (strOf "xname: foo") (strOf "bar") (strOf "foo") ≠ strOf "xname: foo" := by
  refine ⟨rfl, rfl, ?_⟩
  decide

/-- Claim C2, amended: for every config-file content, if the content
contains the SUBSTRING "name: originalName" then renameDDEVProject
rewrites exactly its first occurrence to "name: identifier-originalName";
if the substring is absent the function returns an error and the file
content is left byte-for-byte unchanged (no partial write). -/
theorem c2_rename_first_substring (content identifier originalName : Str) :
    (containsSub content (strOf "name: " ++ originalName) = true →
      ∃ pre post, content = pre ++ (strOf "name: " ++ originalName) ++ post
        ∧ renameContent content identifier originalName
            = Except.ok (pre ++ (strOf "name: " ++ identifier ++ strOf "-" ++ originalName) ++ post)
        ∧ ∀ pre2 post2, content = pre2 ++ (strOf "name: " ++ originalName) ++ post2 →
            pre.length ≤ pre2.length)
    ∧ (containsSub content (strOf "name: " ++ originalName) = false →
      renameContent content identifier originalName = Except.error (strOf "could not find name line")
        ∧ fileAfterRename content identifier originalName = content) := by
  have h6 : strOf "name: " = ['n','a','m','e',':',' '] := rfl
  have hne : strOf "name: " ++ originalName ≠ [] := by
    rw [h6]
    simp
  constructor
  · intro h
    rcases replace1Go_first content (strOf "name: " ++ originalName)
        (strOf "name: " ++ identifier ++ strOf "-" ++ originalName) hne h with
      ⟨pre, post, heq, hrep, hmin⟩
    refine ⟨pre, post, heq, ?_, hmin⟩
    have hemp : (strOf "name: " ++ originalName).isEmpty = false := by
      cases hc : strOf "name: " ++ originalName
      · exact absurd hc hne
      · rfl
    simp [renameContent, h, goReplace1, hemp]
    simpa using hrep
  · intro h
    refine ⟨by simp [renameContent, h], ?_⟩
    simp [fileAfterRename, renameContent, h]

/-- Witness for C2 (amended): the spec example itself — renaming content
"name: foo" with identifier "bar" succeeds and yields "name: bar-foo". -/
theorem c2_witness :
    ∃ pre post, strOf "name: foo" = pre ++ (strOf "name: " ++ strOf "foo") ++ post
      ∧ renameContent (strOf "name: foo") (strOf "bar") (strOf "foo")
          = Except.ok (pre ++ (strOf "name: " ++ strOf "bar" ++ strOf "-" ++ strOf "foo") ++ post)
      ∧ ∀ pre2 post2, strOf "name: foo" = pre2 ++ (strOf "name: " ++ strOf "foo") ++ post2 →
          pre.length ≤ pre2.length :=
  (c2_rename_first_substring (strOf "name: foo") (strOf "bar") (strOf "foo")).1 (by decide)

/-- The literal "worktree " marking a path line in git worktree list
porcelain output. -/
def wtPre : Str := ['w','o','r','k','t','r','e','e',' ']

/-- The literal "branch " marking a branch-reference line. -/
def brPre : Str := ['b','r','a','n','c','h',' ']

/-- The literal "refs/heads/" namespace stripped from branch references. -/
def headsPre : Str := ['r','e','f','s','/','h','e','a','d','s','/']

/-- The literal "bare" marking the object-store record. -/
def bareLit : Str := ['b','a','r','e']

/-- One workspace entry produced by the cmdList registry parser. -/
structure Workspace where
  name : Str
  branch : Str
  path : Str
deriving DecidableEq, Repr

/-- The cmdList parsing loop, part_000 lines 354-391: iterates over the
lines of the porcelain worktree listing with state
(currentPath, currentBranch, isBare, accumulated workspaces), and flushes
the record in progress at end of input. sp is spacesDir plus the path
separator. -/
def listGo (sp : Str) : List Str → Str → Str → Bool → List Workspace → List Workspace
  | [], cur, br, bare, acc =>
    if !cur.isEmpty && !bare && hasPre cur sp then acc ++ [⟨trimPre cur sp, br, cur⟩] else acc
  | line :: rest, cur, br, bare, acc =>
    if hasPre line wtPre then listGo sp rest (trimPre line wtPre) [] false acc
    else if line = bareLit then listGo sp rest cur br true acc
    else if hasPre line brPre then
      listGo sp rest cur (trimPre (trimPre line brPre) headsPre) bare acc
    else if line.isEmpty && !cur.isEmpty then
      listGo sp rest [] [] false
        (if !bare && hasPre cur sp then acc ++ [⟨trimPre cur sp, br, cur⟩] else acc)
    else listGo sp rest cur br bare acc

/-- The cmdList registry parser over the listing split into lines, with
spacesDir the workspaces directory (projectRoot/spaces). -/
def parseLines (spacesDir : Str) (lines : List Str) : List Workspace :=
  listGo (spacesDir ++ ['/']) lines [] [] false []

/-- A porcelain line that is neither a path line, nor the bare marker,
nor a branch line, nor blank (for example a HEAD or detached line). -/
def neutralLine (l : Str) : Prop :=
  hasPre l wtPre = false ∧ l ≠ bareLit ∧ hasPre l brPre = false ∧ l ≠ []

instance (l : Str) : Decidable (neutralLine l) := by
  unfold neutralLine
  infer_instance

theorem isEmpty_false_of_ne_nil {l : Str} (h : l ≠ []) : l.isEmpty = false := by
  cases l with
  | nil => exact absurd rfl h
  | cons c t => rfl

theorem listGo_neutral (sp : Str) (m : List Str) (hm : ∀ l ∈ m, neutralLine l) :
    ∀ rest cur br bare acc,
      listGo sp (m ++ rest) cur br bare acc = listGo sp rest cur br bare acc := by
  induction m with
  | nil => intro rest cur br bare acc; rfl
  | cons l m ih =>
    intro rest cur br bare acc
    obtain ⟨h1, h2, h3, h4⟩ := hm l (by simp)
    have ih2 := ih (fun x hx => hm x (by simp [hx]))
    simp [listGo, h1, h2, h3, isEmpty_false_of_ne_nil h4, ih2]

theorem ne_of_second {a b c d : Char} {t1 t2 : Str} (h : b ≠ d) :
    (a :: b :: t1) ≠ (c :: d :: t2) := by
  intro he
  injection he with _ he2
  injection he2 with he3 _
  exact h he3

theorem listGo_mono (sp : Str) :
    ∀ lines cur br bare acc ws, ws ∈ acc → ws ∈ listGo sp lines cur br bare acc := by
  intro lines
  induction lines with
  | nil =>
    intro cur br bare acc ws hws
    simp only [listGo]
    split
    · exact List.mem_append_left _ hws
    · exact hws
  | cons line rest ih =>
    intro cur br bare acc ws hws
    simp only [listGo]
    repeat' split
    all_goals first
      | exact ih _ _ _ _ _ hws
      | exact ih _ _ _ _ _ (List.mem_append_left _ hws)

theorem listGo_pathPre (sp : Str) :
    ∀ lines cur br bare acc,
      (∀ ws ∈ acc, hasPre ws.path sp = true) →
      ∀ ws ∈ listGo sp lines cur br bare acc, hasPre ws.path sp = true := by
  intro lines
  induction lines with
  | nil =>
    intro cur br bare acc hacc ws hws
    simp only [listGo] at hws
    split at hws
    · rename_i hcond
      simp only [Bool.and_eq_true] at hcond
      rcases List.mem_append.mp hws with h | h
      · exact hacc ws h
      · rcases List.mem_singleton.mp h with rfl
        exact hcond.2
    · exact hacc ws hws
  | cons line rest ih =>
    intro cur br bare acc hacc ws hws
    simp only [listGo] at hws
    split at hws
    · exact ih _ _ _ _ hacc ws hws
    · split at hws
      · exact ih _ _ _ _ hacc ws hws
      · split at hws
        · exact ih _ _ _ _ hacc ws hws
        · split at hws
          · refine ih _ _ _ _ ?_ ws hws
            intro ws2 hws2
            split at hws2
            · rename_i hcond
              simp only [Bool.and_eq_true] at hcond
              rcases List.mem_append.mp hws2 with h | h
              · exact hacc ws2 h
              · rcases List.mem_singleton.mp h with rfl
                exact hcond.2
            · exact hacc ws2 hws2
          · exact ih _ _ _ _ hacc ws hws

theorem listGo_wtStep (sp x : Str) (rest : List Str) (cur br : Str) (bare : Bool)
    (acc : List Workspace) :
    listGo sp ((wtPre ++ x) :: rest) cur br bare acc = listGo sp rest x [] false acc := by
  simp [listGo, hasPre_append, trimPre_append]

theorem listGo_bareStep (sp : Str) (rest : List Str) (cur br : Str) (bare : Bool)
    (acc : List Workspace) :
    listGo sp (bareLit :: rest) cur br bare acc = listGo sp rest cur br true acc := by
  have h1 : hasPre bareLit wtPre = false := rfl
  simp [listGo, h1]

theorem listGo_brStep (sp b2 : Str) (rest : List Str) (cur br : Str) (bare : Bool)
    (acc : List Workspace) :
    listGo sp ((brPre ++ headsPre ++ b2) :: rest) cur br bare acc
      = listGo sp rest cur b2 bare acc := by
  rw [List.append_assoc]
  have h1 : hasPre (brPre ++ (headsPre ++ b2)) wtPre = false := rfl
  have h2 : (brPre ++ (headsPre ++ b2)) ≠ bareLit := ne_of_second (by decide)
  have h3 : hasPre (brPre ++ (headsPre ++ b2)) brPre = true := hasPre_append _ _
  have h4 : trimPre (trimPre (brPre ++ (headsPre ++ b2)) brPre) headsPre = b2 := by
    rw [trimPre_append, trimPre_append]
  simp [listGo, h1, h2, h3, h4]

theorem listGo_blankStep (sp : Str) (rest : List Str) (cur br : Str) (bare : Bool)
    (acc : List Workspace) (hcur : cur ≠ []) :
    listGo sp (([] : Str) :: rest) cur br bare acc
      = listGo sp rest [] [] false
          (if !bare && hasPre cur sp then acc ++ [⟨trimPre cur sp, br, cur⟩] else acc) := by
  have h1 : hasPre ([] : Str) wtPre = false := rfl
  have h2 : ([] : Str) ≠ bareLit := by decide
  have h3 : hasPre ([] : Str) brPre = false := rfl
  simp [listGo, h1, h2, h3, isEmpty_false_of_ne_nil hcur]

theorem listGo_blankNilStep (sp : Str) (rest : List Str) (br : Str) (bare : Bool)
    (acc : List Workspace) :
    listGo sp (([] : Str) :: rest) [] br bare acc = listGo sp rest [] br bare acc := by
  have h1 : hasPre ([] : Str) wtPre = false := rfl
  have h2 : ([] : Str) ≠ bareLit := by decide
  have h3 : hasPre ([] : Str) brPre = false := rfl
  simp [listGo, h1, h2, h3]

theorem listGo_nilFlush (sp cur br : Str) (bare : Bool) (acc : List Workspace) :
    listGo sp [] cur br bare acc
      = if !cur.isEmpty && !bare && hasPre cur sp
          then acc ++ [⟨trimPre cur sp, br, cur⟩] else acc := rfl

theorem listGo_nilNil (sp br : Str) (bare : Bool) (acc : List Workspace) :
    listGo sp [] [] br bare acc = acc := rfl

theorem hasPre_sep (sd n : Str) : hasPre (sd ++ ['/'] ++ n) (sd ++ ['/']) = true :=
  hasPre_append _ _

theorem trimPre_sep (sd n : Str) : trimPre (sd ++ ['/'] ++ n) (sd ++ ['/']) = n :=
  trimPre_append _ _

/-- Claim C5: a two-record porcelain listing whose first record carries the
bare marker and whose second record lies under the workspaces directory
parses to exactly one entry, the non-bare one, named by the path segment
after the workspaces-directory prefix; and in general every entry the
parser produces has a path starting with that prefix (others excluded). -/
theorem c5_registry_two_records (sd p1 b n : Str) (m1 m1b m2 m3 : List Str)
    (hm1 : ∀ l ∈ m1, neutralLine l) (hm1b : ∀ l ∈ m1b, neutralLine l)
    (hm2 : ∀ l ∈ m2, neutralLine l) (hm3 : ∀ l ∈ m3, neutralLine l) :
    parseLines sd ((wtPre ++ p1) :: (m1 ++ bareLit :: (m1b ++ ([] : Str) ::
        ((wtPre ++ (sd ++ ['/'] ++ n)) :: (m2 ++ (brPre ++ headsPre ++ b) ::
          (m3 ++ [([] : Str)]))))))
      = [⟨n, b, sd ++ ['/'] ++ n⟩]
    ∧ ∀ lines ws, ws ∈ parseLines sd lines → hasPre ws.path (sd ++ ['/']) = true := by
  constructor
  · unfold parseLines
    rw [listGo_wtStep, listGo_neutral _ m1 hm1, listGo_bareStep, listGo_neutral _ m1b hm1b]
    have htail : ∀ cur br0 bare0 acc, listGo (sd ++ ['/'])
        ((wtPre ++ (sd ++ ['/'] ++ n)) :: (m2 ++ (brPre ++ headsPre ++ b) ::
          (m3 ++ [([] : Str)]))) cur br0 bare0 acc
        = acc ++ [⟨n, b, sd ++ ['/'] ++ n⟩] := by
      intro cur br0 bare0 acc
      rw [listGo_wtStep, listGo_neutral _ m2 hm2, listGo_brStep, listGo_neutral _ m3 hm3,
        listGo_blankStep _ _ _ _ _ _ (by simp), listGo_nilNil, hasPre_sep, trimPre_sep]
      simp
    by_cases hp1 : p1 = []
    · subst hp1
      rw [listGo_blankNilStep, htail]
      simp
    · rw [listGo_blankStep _ _ _ _ _ _ hp1]
      simp only [Bool.not_true, Bool.false_and, if_false]
      rw [htail]
      simp
  · intro lines ws hws
    exact listGo_pathPre _ lines [] [] false [] (by simp) ws hws

/-- Witness for C5: a concrete listing with a bare record for /p/.bare and
a workspace record for /p/spaces/x1 on branch dev parses to that single
entry, whose path carries the workspaces-directory prefix. -/
theorem c5_witness :
    parseLines (strOf "/p/spaces")
        ((wtPre ++ strOf "/p/.bare") :: ([] ++ bareLit :: ([] ++ ([] : Str) ::
          ((wtPre ++ (strOf "/p/spaces" ++ ['/'] ++ strOf "x1")) ::
            ([strOf "HEAD 1234"] ++ (brPre ++ headsPre ++ strOf "dev") ::
              ([] ++ [([] : Str)]))))))
      = [⟨strOf "x1", strOf "dev", strOf "/p/spaces" ++ ['/'] ++ strOf "x1"⟩]
    ∧ hasPre (Workspace.mk (strOf "x1") (strOf "dev")
          (strOf "/p/spaces" ++ ['/'] ++ strOf "x1")).path (strOf "/p/spaces" ++ ['/'])
        = true := by
  have h := c5_registry_two_records (strOf "/p/spaces") (strOf "/p/.bare") (strOf "dev")
    (strOf "x1") [] [] [strOf "HEAD 1234"] [] (by simp) (by simp) (by decide) (by simp)
  refine ⟨h.1, ?_⟩
  refine h.2 ((wtPre ++ strOf "/p/.bare") :: ([] ++ bareLit :: ([] ++ ([] : Str) ::
    ((wtPre ++ (strOf "/p/spaces" ++ ['/'] ++ strOf "x1")) ::
      ([strOf "HEAD 1234"] ++ (brPre ++ headsPre ++ strOf "dev") ::
        ([] ++ [([] : Str)])))))) _ ?_
  rw [h.1]
  simp

theorem listGo_addBlank (sp : Str) :
    ∀ lines cur br bare acc,
      listGo sp (lines ++ [([] : Str)]) cur br bare acc = listGo sp lines cur br bare acc := by
  intro lines
  induction lines with
  | nil =>
    intro cur br bare acc
    by_cases hc : cur = []
    · subst hc
      rw [List.nil_append, listGo_blankNilStep]
    · rw [List.nil_append, listGo_blankStep _ _ _ _ _ _ hc, listGo_nilNil, listGo_nilFlush]
      simp [isEmpty_false_of_ne_nil hc]
  | cons l rest ih =>
    intro cur br bare acc
    rw [List.cons_append]
    simp only [listGo]
    repeat' split
    all_goals exact ih _ _ _ _

/-- Claim C6: the registry parser flushes the final record at end of input:
parsing any listing without a trailing blank line yields the same entries
as the same listing with a trailing blank line appended; in particular a
listing ending in an unterminated workspace record still yields it. -/
theorem c6_trailing_blank_flush :
    (∀ sd lines, parseLines sd (lines ++ [([] : Str)]) = parseLines sd lines)
    ∧ (∀ sd n b, parseLines sd [wtPre ++ (sd ++ ['/'] ++ n), brPre ++ headsPre ++ b]
        = [⟨n, b, sd ++ ['/'] ++ n⟩]) := by
  constructor
  · intro sd lines
    exact listGo_addBlank _ lines [] [] false []
  · intro sd n b
    unfold parseLines
    rw [show ([wtPre ++ (sd ++ ['/'] ++ n), brPre ++ headsPre ++ b] : List Str)
        = (wtPre ++ (sd ++ ['/'] ++ n)) :: (brPre ++ headsPre ++ b) :: [] from rfl,
      listGo_wtStep, listGo_brStep, listGo_nilFlush, hasPre_sep, trimPre_sep,
      isEmpty_false_of_ne_nil (l := sd ++ ['/'] ++ n) (by simp)]
    simp

/-- The validateWorktree scanning loop, part_000 lines 757-784: tracks the
current worktree path, resets it on a bare marker, and returns the short
branch name at a branch line whose record is the target; returns none when
the input ends without such a line. -/
def valGo (tgt : Str) : List Str → Str → Option Str
  | [], _ => none
  | line :: rest, cur =>
    let cur2 := if hasPre line wtPre then trimPre line wtPre else cur
    if line = bareLit then valGo tgt rest []
    else if hasPre line brPre then
      if cur2 = tgt then some (trimPre (trimPre line brPre) headsPre)
      else valGo tgt rest cur2
    else valGo tgt rest cur2

/-- Model of validateWorktree: ok with the branch name, or the
"is not a git worktree" error when the scan finds no branch line for the
target. -/
def validateWorktreeRes (tgt : Str) (lines : List Str) : Except Str Str :=
  match valGo tgt lines [] with
  | some b => Except.ok b
  | none => Except.error (tgt ++ strOf " is not a git worktree")

theorem valGo_wtStep (tgt x : Str) (rest : List Str) (cur : Str) :
    valGo tgt ((wtPre ++ x) :: rest) cur = valGo tgt rest x := by
  have h1 : (wtPre ++ x) ≠ bareLit := ne_of_second (by decide)
  have h2 : hasPre (wtPre ++ x) brPre = false := rfl
  simp [valGo, h1, h2, hasPre_append, trimPre_append]

theorem valGo_otherStep (tgt line : Str) (rest : List Str) (cur : Str)
    (h1 : hasPre line wtPre = false) (h2 : line ≠ bareLit)
    (h3 : hasPre line brPre = false) :
    valGo tgt (line :: rest) cur = valGo tgt rest cur := by
  simp [valGo, h1, h2, h3]

theorem valGo_neutralStep (tgt : Str) (m : List Str) (hm : ∀ l ∈ m, neutralLine l) :
    ∀ rest cur, valGo tgt (m ++ rest) cur = valGo tgt rest cur := by
  induction m with
  | nil => intro rest cur; rfl
  | cons l m ih =>
    intro rest cur
    obtain ⟨h1, h2, h3, _⟩ := hm l (by simp)
    rw [List.cons_append, valGo_otherStep _ _ _ _ h1 h2 h3]
    exact ih (fun x hx => hm x (by simp [hx])) rest cur

theorem valGo_none (tgt : Str) (htgt : tgt ≠ []) :
    ∀ lines cur, cur ≠ tgt → (∀ l ∈ lines, l ≠ wtPre ++ tgt) →
      valGo tgt lines cur = none := by
  intro lines
  induction lines with
  | nil => intro cur _ _; rfl
  | cons line rest ih =>
    intro cur hcur hl
    have hlrest : ∀ l ∈ rest, l ≠ wtPre ++ tgt := fun x hx => hl x (by simp [hx])
    by_cases hw : hasPre line wtPre = true
    · rcases (hasPre_iff _ _).mp hw with ⟨x, rfl⟩
      have hx : x ≠ tgt := by
        intro h
        exact hl (wtPre ++ x) (by simp) (by rw [h])
      rw [valGo_wtStep]
      exact ih x hx hlrest
    · have hw2 : hasPre line wtPre = false := by
        cases hv : hasPre line wtPre
        · rfl
        · exact absurd hv hw
      by_cases hb : line = bareLit
      · subst hb
        have h1 : hasPre bareLit wtPre = false := rfl
        simp only [valGo, h1, Bool.false_eq_true, if_false, if_pos rfl]
        exact ih [] (fun h => htgt h.symm) hlrest
      · by_cases hbr : hasPre line brPre = true
        · simp only [valGo, hw2, Bool.false_eq_true, if_false, if_neg hb, hbr, if_true,
            if_neg hcur]
          exact ih cur hcur hlrest
        · have hbr2 : hasPre line brPre = false := by
            cases hv : hasPre line brPre
            · rfl
            · exact absurd hv hbr
          rw [valGo_otherStep _ _ _ _ hw2 hb hbr2]
          exact ih cur hcur hlrest

theorem valGo_preStep (tgt : Str) (htgt : tgt ≠ []) :
    ∀ pre rest cur, cur ≠ tgt → (∀ l ∈ pre, l ≠ wtPre ++ tgt) →
      ∃ cur2, cur2 ≠ tgt ∧ valGo tgt (pre ++ rest) cur = valGo tgt rest cur2 := by
  intro pre
  induction pre with
  | nil => intro rest cur hcur _; exact ⟨cur, hcur, rfl⟩
  | cons line pre2 ih =>
    intro rest cur hcur hl
    have hlrest : ∀ l ∈ pre2, l ≠ wtPre ++ tgt := fun x hx => hl x (by simp [hx])
    rw [List.cons_append]
    by_cases hw : hasPre line wtPre = true
    · rcases (hasPre_iff _ _).mp hw with ⟨x, rfl⟩
      have hx : x ≠ tgt := by
        intro h
        exact hl (wtPre ++ x) (by simp) (by rw [h])
      rw [valGo_wtStep]
      exact ih rest x hx hlrest
    · have hw2 : hasPre line wtPre = false := by
        cases hv : hasPre line wtPre
        · rfl
        · exact absurd hv hw
      by_cases hb : line = bareLit
      · subst hb
        have h1 : hasPre bareLit wtPre = false := rfl
        simp only [valGo, h1, Bool.false_eq_true, if_false, if_pos rfl]
        exact ih rest [] (fun h => htgt h.symm) hlrest
      · by_cases hbr : hasPre line brPre = true
        · simp only [valGo, hw2, Bool.false_eq_true, if_false, if_neg hb, hbr, if_true,
            if_neg hcur]
          exact ih rest cur hcur hlrest
        · have hbr2 : hasPre line brPre = false := by
            cases hv : hasPre line brPre
            · rfl
            · exact absurd hv hbr
          rw [valGo_otherStep _ _ _ _ hw2 hb hbr2]
          exact ih rest cur hcur hlrest

theorem listGo_exState (sp : Str) :
    ∀ pre rest cur br bare acc, ∃ cur2 br2 bare2 acc2,
      listGo sp (pre ++ rest) cur br bare acc = listGo sp rest cur2 br2 bare2 acc2 := by
  intro pre
  induction pre with
  | nil => intro rest cur br bare acc; exact ⟨cur, br, bare, acc, rfl⟩
  | cons line pre2 ih =>
    intro rest cur br bare acc
    rw [List.cons_append]
    simp only [listGo]
    repeat' split
    all_goals apply ih

/-- Model of Go unicode.IsSpace, used by strings.TrimSpace: the Latin-1
white space characters plus the Unicode White_Space code points. -/
def isGoSpace (c : Char) : Bool :=
  c == Char.ofNat 32 || c == Char.ofNat 9 || c == Char.ofNat 10 || c == Char.ofNat 11
    || c == Char.ofNat 12 || c == Char.ofNat 13 || c == Char.ofNat 0x85 || c == Char.ofNat 0xA0
    || c == Char.ofNat 0x1680 || (decide (Char.ofNat 0x2000 ≤ c) && decide (c ≤ Char.ofNat 0x200A))
    || c == Char.ofNat 0x2028 || c == Char.ofNat 0x2029 || c == Char.ofNat 0x202F
    || c == Char.ofNat 0x205F || c == Char.ofNat 0x3000

/-- Model of Go strings.TrimSpace: drops white space from both ends. -/
def goTrimSpace (s : Str) : Str :=
  ((s.dropWhile isGoSpace).reverse.dropWhile isGoSpace).reverse

/-- The four external side effects the removal workflow can perform after
confirmation. -/
inductive RemoveAct where
  | ddevDelete
  | worktreeRemove
  | branchDelete
  | dockerPrune
deriving DecidableEq, Repr

/-- Oracle outcomes of the external commands invoked by cmdRemove. -/
structure RemoveEnv where
  ddevConfigExists : Bool
  ddevDeleteOk : Bool
  wtRemoveOk : Bool
  branchDeleteOk : Bool
  pruneOk : Bool
deriving DecidableEq, Repr

/-- Observable outcome of a cmdRemove run: process exit code, whether the
confirmation prompt was reached, whether the Aborted message was printed,
and the external side effects attempted, in order. -/
structure RemoveResult where
  exit : Nat
  promptShown : Bool
  abortedMsg : Bool
  actions : List RemoveAct
deriving DecidableEq, Repr

/-- Model of cmdRemove from validation onward, part_000 lines 638-753:
validate the target against the worktree listing (exit 1 before the
prompt on failure); read the confirmation line, trim it, and abort with
"Aborted." unless it is y or Y; then delete the DDEV project when its
config exists (failure is only a warning), remove the worktree (failure
is fatal), delete the branch and prune the build cache (failures are
warnings). -/
def cmdRemoveModel (lines : List Str) (tgt input : Str) (env : RemoveEnv) : RemoveResult :=
  match valGo tgt lines [] with
  | none => ⟨1, false, false, []⟩
  | some _ =>
    if goTrimSpace input ≠ strOf "y" ∧ goTrimSpace input ≠ strOf "Y" then ⟨0, true, true, []⟩
    else
      let a1 : List RemoveAct := if env.ddevConfigExists then [RemoveAct.ddevDelete] else []
      let a2 := a1 ++ [RemoveAct.worktreeRemove]
      if env.wtRemoveOk then
        ⟨0, true, false, a2 ++ [RemoveAct.branchDelete, RemoveAct.dockerPrune]⟩
      else ⟨1, true, false, a2⟩

/-- Claim C10: a registry record with no branch-reference line (a detached
worktree) under the workspaces directory is reported by validateWorktree
as not a git worktree, so cmdRemove exits 1 before the confirmation
prompt with no side effects, even though cmdList shows the very same
entry as a real workspace. -/
theorem c10_detached_not_removable (sd n : Str) (pre mid tail : List Str)
    (hpre : ∀ l ∈ pre, l ≠ wtPre ++ (sd ++ ['/'] ++ n))
    (hmid : ∀ l ∈ mid, neutralLine l)
    (htail : tail = [] ∨ tail = [([] : Str)]
      ∨ ∃ p rest2, tail = ([] : Str) :: (wtPre ++ p) :: rest2 ∧ p ≠ sd ++ ['/'] ++ n
          ∧ ∀ l ∈ rest2, l ≠ wtPre ++ (sd ++ ['/'] ++ n)) :
    validateWorktreeRes (sd ++ ['/'] ++ n)
        (pre ++ (wtPre ++ (sd ++ ['/'] ++ n)) :: (mid ++ tail))
      = Except.error ((sd ++ ['/'] ++ n) ++ strOf " is not a git worktree")
    ∧ (⟨n, [], sd ++ ['/'] ++ n⟩ : Workspace)
        ∈ parseLines sd (pre ++ (wtPre ++ (sd ++ ['/'] ++ n)) :: (mid ++ tail))
    ∧ ∀ input env, cmdRemoveModel (pre ++ (wtPre ++ (sd ++ ['/'] ++ n)) :: (mid ++ tail))
        (sd ++ ['/'] ++ n) input env = ⟨1, false, false, []⟩ := by
  have htgt : (sd ++ ['/'] ++ n : Str) ≠ [] := by simp
  have hnil : ([] : Str) ≠ sd ++ ['/'] ++ n := fun h => htgt h.symm
  have hnone : valGo (sd ++ ['/'] ++ n)
      (pre ++ (wtPre ++ (sd ++ ['/'] ++ n)) :: (mid ++ tail)) [] = none := by
    obtain ⟨cur2, hc2, heq⟩ := valGo_preStep (sd ++ ['/'] ++ n) htgt pre
      ((wtPre ++ (sd ++ ['/'] ++ n)) :: (mid ++ tail)) [] hnil hpre
    rw [heq, valGo_wtStep, valGo_neutralStep _ mid hmid]
    rcases htail with rfl | rfl | ⟨p, rest2, rfl, hp, hrest2⟩
    · rfl
    · rw [valGo_otherStep _ [] _ _ rfl (by decide) rfl]
      rfl
    · rw [valGo_otherStep _ [] _ _ rfl (by decide) rfl, valGo_wtStep]
      exact valGo_none _ htgt rest2 p hp hrest2
  refine ⟨?_, ?_, ?_⟩
  · unfold validateWorktreeRes
    rw [hnone]
  · obtain ⟨c2, b2, g2, acc2, heq⟩ := listGo_exState (sd ++ ['/']) pre
      ((wtPre ++ (sd ++ ['/'] ++ n)) :: (mid ++ tail)) [] [] false []
    unfold parseLines
    rw [heq, listGo_wtStep, listGo_neutral _ mid hmid]
    rcases htail with rfl | rfl | ⟨p, rest2, rfl, hp, hrest2⟩
    · rw [listGo_nilFlush, isEmpty_false_of_ne_nil htgt, hasPre_sep, trimPre_sep]
      simp
    · rw [listGo_blankStep _ _ _ _ _ _ htgt, hasPre_sep, trimPre_sep, listGo_nilNil]
      simp
    · rw [listGo_blankStep _ _ _ _ _ _ htgt, hasPre_sep, trimPre_sep, listGo_wtStep]
      apply listGo_mono
      simp
  · intro input env
    unfold cmdRemoveModel
    rw [hnone]

/-- Witness for C10: a concrete listing with a bare record and a detached
record for /p/spaces/x1; validation fails, the entry is listed, and
cmdRemove exits 1 with no actions even for confirmation input y. -/
theorem c10_witness :
    validateWorktreeRes (strOf "/p/spaces" ++ ['/'] ++ strOf "x1")
        ([wtPre ++ strOf "/p/.bare", bareLit, []]
          ++ (wtPre ++ (strOf "/p/spaces" ++ ['/'] ++ strOf "x1")) :: ([strOf "detached"] ++ []))
      = Except.error ((strOf "/p/spaces" ++ ['/'] ++ strOf "x1") ++ strOf " is not a git worktree")
    ∧ (⟨strOf "x1", [], strOf "/p/spaces" ++ ['/'] ++ strOf "x1"⟩ : Workspace)
        ∈ parseLines (strOf "/p/spaces")
          ([wtPre ++ strOf "/p/.bare", bareLit, []]
            ++ (wtPre ++ (strOf "/p/spaces" ++ ['/'] ++ strOf "x1")) :: ([strOf "detached"] ++ []))
    ∧ cmdRemoveModel
        ([wtPre ++ strOf "/p/.bare", bareLit, []]
          ++ (wtPre ++ (strOf "/p/spaces" ++ ['/'] ++ strOf "x1")) :: ([strOf "detached"] ++ []))
        (strOf "/p/spaces" ++ ['/'] ++ strOf "x1") (strOf "y") ⟨true, true, true, true, true⟩
      = ⟨1, false, false, []⟩ := by
  have h := c10_detached_not_removable (strOf "/p/spaces") (strOf "x1")
    [wtPre ++ strOf "/p/.bare", bareLit, []] [strOf "detached"] []
    (by decide) (by decide) (Or.inl rfl)
  exact ⟨h.1, h.2.1, h.2.2 (strOf "y") ⟨true, true, true, true, true⟩⟩

/-- Claim C7 as stated is false on the code: cmdRemove trims the
confirmation input with strings.TrimSpace before comparing, so the input
" y" — which is not exactly y or Y — does not abort: the removal proceeds
and performs side effects. -/
theorem c7_counterexample :
    strOf " y" ≠ strOf "y" ∧ strOf " y" ≠ strOf "Y"
    ∧ (cmdRemoveModel [wtPre ++ strOf "/p/spaces/x1", brPre ++ headsPre ++ strOf "dev"]
        (strOf "/p/spaces/x1") (strOf " y") ⟨true, true, true, true, true⟩).abortedMsg = false
    ∧ (cmdRemoveModel [wtPre ++ strOf "/p/spaces/x1", brPre ++ headsPre ++ strOf "dev"]
        (strOf "/p/spaces/x1") (strOf " y") ⟨true, true, true, true, true⟩).actions ≠ [] := by
  refine ⟨by decide, by decide, ?_, ?_⟩
  · rfl
  · decide

/-- Claim C7, amended: cmdRemove compares the confirmation input after
strings.TrimSpace: whenever the trimmed input is neither y nor Y
(including empty string, n, yes), the command aborts cleanly with the
Aborted message and performs no side effects; when the trimmed input is
y or Y it proceeds past the prompt to the teardown actions. -/
theorem c7_confirmation_trimmed (lines : List Str) (tgt input : Str) (env : RemoveEnv)
    (b : Str) (hv : valGo tgt lines [] = some b) :
    ((goTrimSpace input ≠ strOf "y" ∧ goTrimSpace input ≠ strOf "Y") →
      cmdRemoveModel lines tgt input env = ⟨0, true, true, []⟩)
    ∧ ((goTrimSpace input = strOf "y" ∨ goTrimSpace input = strOf "Y") →
      (cmdRemoveModel lines tgt input env).promptShown = true
        ∧ RemoveAct.worktreeRemove ∈ (cmdRemoveModel lines tgt input env).actions
        ∧ (cmdRemoveModel lines tgt input env).abortedMsg = false) := by
  unfold cmdRemoveModel
  rw [hv]
  constructor
  · intro h
    simp [h]
  · intro h
    have hcond : ¬(goTrimSpace input ≠ strOf "y" ∧ goTrimSpace input ≠ strOf "Y") := by
      rcases h with h | h
      · exact fun hc => hc.1 h
      · exact fun hc => hc.2 h
    simp only [hcond, if_false]
    by_cases hwt : env.wtRemoveOk
    · simp [hwt]
    · simp [hwt]

/-- Witness for C7 (amended): with a valid listing, confirmation input n
aborts with no actions, and confirmation input y proceeds to the worktree
removal. -/
theorem c7_witness :
    cmdRemoveModel [wtPre ++ strOf "/p/spaces/x1", brPre ++ headsPre ++ strOf "dev"]
        (strOf "/p/spaces/x1") (strOf "n") ⟨true, true, true, true, true⟩
      = ⟨0, true, true, []⟩
    ∧ RemoveAct.worktreeRemove
        ∈ (cmdRemoveModel [wtPre ++ strOf "/p/spaces/x1", brPre ++ headsPre ++ strOf "dev"]
            (strOf "/p/spaces/x1") (strOf "y") ⟨true, true, true, true, true⟩).actions := by
  constructor
  · exact (c7_confirmation_trimmed _ _ _ _ (strOf "dev") (by decide)).1 (by decide)
  · exact ((c7_confirmation_trimmed _ _ _ _ (strOf "dev") (by decide)).2 (by decide)).2.1

/-- The identifier derivation of cmdNewFromArgs, part_000 lines 447-456,
acting on the byte sequence of the workspace name: Go len() and slicing
operate on UTF-8 bytes, so the result is the whole name when its byte
length is less than 4, else its first 4 bytes. -/
def deriveIdentifier (name : List Nat) : List Nat :=
  if name.length < 4 then name else name.take 4

/-- The identifier cmdNewFromArgs passes on, from the positional
arguments (name, optional explicit identifier): an explicit second
positional argument overrides the derivation; any other arity is a usage
error. -/
def chooseIdentifier (positional : List (List Nat)) : Option (List Nat) :=
  match positional with
  | [name] => some (deriveIdentifier name)
  | [_, ident] => some ident
  | _ => none

/-- Standard UTF-8 encoding of one Unicode code point, the byte
representation Go uses for string contents. -/
def utf8Bytes1 (c : Nat) : List Nat :=
  if c < 0x80 then [c]
  else if c < 0x800 then [0xC0 + c / 64, 0x80 + c % 64]
  else if c < 0x10000 then [0xE0 + c / 4096, 0x80 + c / 64 % 64, 0x80 + c % 64]
  else [0xF0 + c / 262144, 0x80 + c / 4096 % 64, 0x80 + c / 64 % 64, 0x80 + c % 64]

/-- UTF-8 byte sequence of a list of code points. -/
def utf8Encode (cs : List Nat) : List Nat := (cs.map utf8Bytes1).flatten

/-- Stated from the words of claim C8: derivation on characters — the
full name when it has fewer than 4 characters, else exactly its first 4
characters. -/
def claimDeriveIdentifier (chars : List Nat) : List Nat :=
  if chars.length < 4 then chars else chars.take 4

/-- Claim C8 as stated is false on the code: for the 3-character name
made of three e-acute characters (code point 233, two UTF-8 bytes each)
the claim requires the derived identifier to be the full name (length
3 < 4), but the code slices the first 4 BYTES of the 6-byte name,
yielding only the first two characters. -/
theorem c8_counterexample :
    ([233, 233, 233] : List Nat).length < 4
    ∧ utf8Encode (claimDeriveIdentifier [233, 233, 233]) = utf8Encode [233, 233, 233]
    ∧ deriveIdentifier (utf8Encode [233, 233, 233]) ≠ utf8Encode [233, 233, 233] := by
  decide

/-- Claim C8, amended: the derivation acts on the UTF-8 byte sequence of
the workspace name — if the byte length is less than 4 the identifier is
the full name, otherwise exactly its first 4 bytes (for ASCII names this
coincides with the first 4 characters); an explicit second positional
argument overrides the derivation. -/
theorem c8_identifier_bytes (name : List Nat) :
    (name.length < 4 → deriveIdentifier name = name)
    ∧ (4 ≤ name.length → deriveIdentifier name = name.take 4)
    ∧ (∀ ident, chooseIdentifier [name, ident] = some ident)
    ∧ chooseIdentifier [name] = some (deriveIdentifier name) := by
  refine ⟨?_, ?_, ?_, rfl⟩
  · intro h
    simp [deriveIdentifier, h]
  · intro h
    have h2 : ¬(name.length < 4) := by omega
    simp [deriveIdentifier, h2]
  · intro ident
    rfl

/-- Witness for C8 (amended): a 2-byte name keeps its full name as
identifier, and the 13-byte ASCII name 0001-new-task yields its first 4
bytes 0001. -/
theorem c8_witness :
    deriveIdentifier [97, 98] = [97, 98]
    ∧ deriveIdentifier [48, 48, 48, 49, 45, 110, 101, 119, 45, 116, 97, 115, 107]
        = [48, 48, 48, 49]
    ∧ chooseIdentifier [[97, 98], [116, 49]] = some [116, 49] := by
  refine ⟨(c8_identifier_bytes [97, 98]).1 (by decide), ?_, ?_⟩
  · exact ((c8_identifier_bytes [48, 48, 48, 49, 45, 110, 101, 119, 45, 116, 97, 115, 107]).2.1
      (by decide)).trans (by decide)
  · exact (c8_identifier_bytes [97, 98]).2.2.1 [116, 49]

/-- Model of the scanning loop of getDDEVProjectName, part_000 lines
786-806: the first line with the "name: " prefix yields the trailing
value. -/
def scanNameLines : List Str → Except Str Str
  | [] => Except.error (strOf "no name field found")
  | l :: rest =>
    if hasPre l (strOf "name: ") then Except.ok (trimPre l (strOf "name: "))
    else scanNameLines rest

/-- Model of getDDEVProjectName over the content of .ddev/config.yaml in
one worktree; none models a missing file (os.Open fails). -/
def getDDEVProjectName (content : Option Str) : Except Str Str :=
  match content with
  | none => Except.error (strOf "could not open config")
  | some c => scanNameLines (splitNl c)

/-- Model of findDDEVProjectName, part_000 lines 592-606: reads the DDEV
project name from the main worktree config, then the master worktree
config, and fails when neither yields a name. -/
def findDDEVProjectName (mainCfg masterCfg : Option Str) : Except Str Str :=
  match getDDEVProjectName mainCfg with
  | Except.ok nm => Except.ok nm
  | Except.error _ =>
    match getDDEVProjectName masterCfg with
    | Except.ok nm => Except.ok nm
    | Except.error _ => Except.error (strOf "no DDEV config found in main or master worktree")

/-- Observable events of one cmdNew run, in execution order: an external
side effect that returned success, a CleanupState flag assignment, or a
rollback action or warning. -/
inductive NewEv where
  | createdWorktree
  | setWorktreeCreated
  | renamedProject
  | updatedSettings
  | startedDDEV
  | setDdevStarted
  | dbHandled
  | printedSummary
  | cleanupDeleteDdev
  | cleanupDeleteDdevWarn
  | cleanupRemoveWorktree
  | cleanupRemoveWorktreeWarn
deriving DecidableEq, Repr

/-- Oracle environment for one cmdNew run: the outcome of each external
command and the relevant file contents. originDevelopExists only selects
the implicit base reference and has no observable effect modelled here. -/
structure NewEnv where
  rootOk : Bool
  baseVerifyOk : Bool
  originDevelopExists : Bool
  mainCfg : Option Str
  masterCfg : Option Str
  createWorktreeOk : Bool
  renameOk : Bool
  settingsExists : Bool
  settingsUpdateOk : Bool
  ddevStartOk : Bool
  dbImportOk : Bool
  dbDetail : Str
  cleanupDdevOk : Bool
  cleanupWtOk : Bool

/-- Outcome of a cmdNew run: exit code, ordered events, and the StepResult
summary entries (description, detail). -/
structure NewResult where
  exit : Nat
  events : List NewEv
  steps : List (Str × Str)

/-- The cleanup function of part_000 lines 961-987: deletes the DDEV
project only when ddevStarted is set, removes the worktree only when
worktreeCreated is set; its own failures produce warnings only. -/
def cleanupEvents (env : NewEnv) (wtCreated ddevStarted : Bool) : List NewEv :=
  (if ddevStarted then
      NewEv.cleanupDeleteDdev ::
        (if env.cleanupDdevOk then [] else [NewEv.cleanupDeleteDdevWarn])
    else [])
  ++ (if wtCreated then
      NewEv.cleanupRemoveWorktree ::
        (if env.cleanupWtOk then [] else [NewEv.cleanupRemoveWorktreeWarn])
    else [])

/-- Steps 4 and 5 of cmdNew (ddev start, database import), shared by the
default-branch and renamed paths: the ddevStarted flag is set only after
a successful start; failures roll back with the flags accumulated so
far. -/
def runNewTail (env : NewEnv) (ddevName : Str) (ev : List NewEv)
    (steps : List (Str × Str)) : NewResult :=
  if env.ddevStartOk then
    if env.dbImportOk then
      ⟨0, ev ++ [NewEv.startedDDEV, NewEv.setDdevStarted, NewEv.dbHandled, NewEv.printedSummary],
        steps ++ [(strOf "Started DDEV", ddevName), (strOf "Database", env.dbDetail)]⟩
    else
      ⟨1, ev ++ [NewEv.startedDDEV, NewEv.setDdevStarted] ++ cleanupEvents env true true,
        steps ++ [(strOf "Started DDEV", ddevName)]⟩
  else ⟨1, ev ++ cleanupEvents env true false, steps⟩

/-- Model of cmdNew, part_000 lines 461-590: resolve root, verify an
explicit base reference, look up the DDEV project name, create the
worktree (setting worktreeCreated after success), then either skip all
environment steps (no name found) or rename, update settings, start DDEV
and import data, rolling back on any fatal failure. -/
def runCmdNew (wtName identifier baseBranch : Str) (env : NewEnv) : NewResult :=
  if env.rootOk then
    if baseBranch ≠ [] ∧ env.baseVerifyOk = false then ⟨1, [], []⟩
    else
      let nameRes := findDDEVProjectName env.mainCfg env.masterCfg
      let steps0 : List (Str × Str) :=
        match nameRes with
        | Except.ok nm => [(strOf "Read DDEV project name", nm)]
        | Except.error _ => []
      if env.createWorktreeOk then
        let ev1 := [NewEv.createdWorktree, NewEv.setWorktreeCreated]
        let steps1 := steps0 ++ [(strOf "Created git worktree", wtName)]
        match nameRes with
        | Except.error _ =>
          ⟨0, ev1 ++ [NewEv.printedSummary],
            steps1 ++ [(strOf "DDEV", strOf "Skipped (no .ddev/config.yaml found in any worktree)")]⟩
        | Except.ok originalName =>
          if wtName = strOf "main" ∨ wtName = strOf "master" then
            runNewTail env originalName ev1
              (steps1 ++ [(strOf "DDEV project name", originalName ++ strOf " (kept default)")])
          else
            let ddevName := identifier ++ strOf "-" ++ originalName
            if env.renameOk then
              let ev2 := ev1 ++ [NewEv.renamedProject]
              let steps2 := steps1 ++ [(strOf "Renamed DDEV project", ddevName)]
              if env.settingsExists then
                if env.settingsUpdateOk then
                  runNewTail env ddevName (ev2 ++ [NewEv.updatedSettings])
                    (steps2 ++ [(strOf "Updated settings.ddev.php",
                      strOf "DB host set to ddev-" ++ ddevName ++ strOf "-db")])
                else ⟨1, ev2 ++ cleanupEvents env true false, steps2⟩
              else runNewTail env ddevName ev2 steps2
            else ⟨1, ev1 ++ cleanupEvents env true false, steps1⟩
      else ⟨1, cleanupEvents env false false, steps0⟩
  else ⟨1, [], []⟩

theorem cleanup_mem_rw (env : NewEnv) (w d : Bool) (e : NewEv) :
    e ∈ cleanupEvents env w d ↔
      (d = true ∧ (e = NewEv.cleanupDeleteDdev
        ∨ (env.cleanupDdevOk = false ∧ e = NewEv.cleanupDeleteDdevWarn)))
      ∨ (w = true ∧ (e = NewEv.cleanupRemoveWorktree
        ∨ (env.cleanupWtOk = false ∧ e = NewEv.cleanupRemoveWorktreeWarn))) := by
  unfold cleanupEvents
  cases w <;> cases d <;>
    by_cases h1 : env.cleanupDdevOk <;>
      by_cases h2 : env.cleanupWtOk <;>
        simp_all <;> tauto

/-- A concrete all-success oracle for cmdNew, with a main-worktree config
declaring name proj. -/
def envAllOk : NewEnv :=
  ⟨true, true, false, some (strOf "name: proj" ++ [Char.ofNat 10]), none,
    true, true, true, true, true, true, [], true, true⟩

/-- envAllOk except that ddev start fails and the rollback worktree
removal also fails. -/
def envStartFail : NewEnv :=
  ⟨true, true, false, some (strOf "name: proj" ++ [Char.ofNat 10]), none,
    true, true, true, true, false, true, [], true, false⟩

/-- envAllOk except that no DDEV config exists in any worktree. -/
def envNoDdev : NewEnv :=
  ⟨true, true, false, none, none, true, true, true, true, true, true, [], true, true⟩

/-- Claim C1: in every cmdNew run in which worktree creation succeeded
(worktreeCreated set) and the subsequent ddev start fails, rollback
removes the created worktree and the process exits non-zero; this holds
for every rollback outcome (so a rollback failure never changes the exit
status) and a failed rollback removal is surfaced as a warning; the DDEV
project is not deleted since it was never started. -/
theorem c1_new_rollback_on_start_failure (wtName identifier baseBranch : Str) (env : NewEnv)
    (hroot : env.rootOk = true)
    (hbase : baseBranch = [] ∨ env.baseVerifyOk = true)
    (hddev : (findDDEVProjectName env.mainCfg env.masterCfg).isOk = true)
    (hwt : env.createWorktreeOk = true)
    (hrename : (wtName = strOf "main" ∨ wtName = strOf "master")
      ∨ (env.renameOk = true ∧ (env.settingsExists = true → env.settingsUpdateOk = true)))
    (hstart : env.ddevStartOk = false) :
    (runCmdNew wtName identifier baseBranch env).exit = 1
    ∧ NewEv.cleanupRemoveWorktree ∈ (runCmdNew wtName identifier baseBranch env).events
    ∧ NewEv.cleanupDeleteDdev ∉ (runCmdNew wtName identifier baseBranch env).events
    ∧ (env.cleanupWtOk = false →
        NewEv.cleanupRemoveWorktreeWarn ∈ (runCmdNew wtName identifier baseBranch env).events) := by
  have hbc : ¬(baseBranch ≠ [] ∧ env.baseVerifyOk = false) := by
    rcases hbase with h | h
    · exact fun hc => hc.1 h
    · intro hc
      rw [h] at hc
      exact absurd hc.2 (by simp)
  obtain ⟨nm, hnm⟩ : ∃ nm, findDDEVProjectName env.mainCfg env.masterCfg = Except.ok nm := by
    cases h : findDDEVProjectName env.mainCfg env.masterCfg with
    | ok nm => exact ⟨nm, rfl⟩
    | error e =>
      rw [h] at hddev
      exact absurd hddev (by simp [Except.isOk, Except.toBool])
  by_cases hdef : (wtName = strOf "main" ∨ wtName = strOf "master")
  · simp [runCmdNew, hroot, hbc, hnm, hwt, if_pos hdef, runNewTail, hstart, cleanup_mem_rw]
  · rcases hrename with hdef2 | ⟨hren, hset⟩
    · exact absurd hdef2 hdef
    · by_cases hse : env.settingsExists = true
      · have hsu : env.settingsUpdateOk = true := hset hse
        simp [runCmdNew, hroot, hbc, hnm, hwt, hdef, hren, hse, hsu, runNewTail, hstart,
          cleanup_mem_rw]
      · simp only [Bool.not_eq_true] at hse
        simp [runCmdNew, hroot, hbc, hnm, hwt, hdef, hren, hse, runNewTail, hstart,
          cleanup_mem_rw]

/-- Witness for C1: with the concrete oracle envStartFail (ddev start
fails, rollback removal also fails) the run exits 1, attempts the
worktree removal, warns about its failure, and never deletes a DDEV
project. -/
theorem c1_witness :
    (runCmdNew (strOf "feat") (strOf "t1") [] envStartFail).exit = 1
    ∧ NewEv.cleanupRemoveWorktree ∈ (runCmdNew (strOf "feat") (strOf "t1") [] envStartFail).events
    ∧ NewEv.cleanupDeleteDdev ∉ (runCmdNew (strOf "feat") (strOf "t1") [] envStartFail).events
    ∧ NewEv.cleanupRemoveWorktreeWarn
        ∈ (runCmdNew (strOf "feat") (strOf "t1") [] envStartFail).events := by
  have h := c1_new_rollback_on_start_failure (strOf "feat") (strOf "t1") [] envStartFail rfl
    (Or.inl rfl) (by decide) rfl (Or.inr ⟨rfl, fun _ => rfl⟩) rfl
  exact ⟨h.1, h.2.1, h.2.2.1, h.2.2.2 rfl⟩

/-- Claim C4: when the DDEV project name lookup fails, cmdNew is still
successful: after a successful worktree creation it records an explicit
skip for all environment steps, prints the summary, exits 0, and performs
no environment-related action at all. -/
theorem c4_no_ddev_skips_env_steps (wtName identifier baseBranch : Str) (env : NewEnv)
    (hroot : env.rootOk = true)
    (hbase : baseBranch = [] ∨ env.baseVerifyOk = true)
    (hddev : (findDDEVProjectName env.mainCfg env.masterCfg).isOk = false)
    (hwt : env.createWorktreeOk = true) :
    runCmdNew wtName identifier baseBranch env
      = ⟨0, [NewEv.createdWorktree, NewEv.setWorktreeCreated, NewEv.printedSummary],
          [(strOf "Created git worktree", wtName),
           (strOf "DDEV", strOf "Skipped (no .ddev/config.yaml found in any worktree)")]⟩ := by
  have hbc : ¬(baseBranch ≠ [] ∧ env.baseVerifyOk = false) := by
    rcases hbase with h | h
    · exact fun hc => hc.1 h
    · intro hc
      rw [h] at hc
      exact absurd hc.2 (by simp)
  obtain ⟨e, he⟩ : ∃ e, findDDEVProjectName env.mainCfg env.masterCfg = Except.error e := by
    cases h : findDDEVProjectName env.mainCfg env.masterCfg with
    | ok nm =>
      rw [h] at hddev
      exact absurd hddev (by simp [Except.isOk, Except.toBool])
    | error e => exact ⟨e, rfl⟩
  simp [runCmdNew, hroot, hbc, he, hwt]

/-- Witness for C4: with the concrete oracle envNoDdev (no config file in
the main or master worktree), the run exits 0 with only the
version-control part performed and the explicit DDEV skip recorded. -/
theorem c4_witness :
    runCmdNew (strOf "feat") (strOf "t1") [] envNoDdev
      = ⟨0, [NewEv.createdWorktree, NewEv.setWorktreeCreated, NewEv.printedSummary],
          [(strOf "Created git worktree", strOf "feat"),
           (strOf "DDEV", strOf "Skipped (no .ddev/config.yaml found in any worktree)")]⟩ :=
  c4_no_ddev_skips_env_steps (strOf "feat") (strOf "t1") [] envNoDdev rfl (Or.inl rfl)
    (by decide) rfl

/-- Claim C9: in every cmdNew run the CleanupState flags are set only
strictly after the corresponding external side effect succeeded, never
before — the setWorktreeCreated assignment occurs only when worktree
creation succeeded, immediately after its success event (the run begins
with the pair), likewise setDdevStarted immediately follows a successful
ddev start — and rollback only ever attempts to undo effects whose flag
was set. -/
theorem c9_flags_set_only_after_success (wtName identifier baseBranch : Str) (env : NewEnv) :
    (NewEv.setWorktreeCreated ∈ (runCmdNew wtName identifier baseBranch env).events →
      env.createWorktreeOk = true
        ∧ NewEv.createdWorktree ∈ (runCmdNew wtName identifier baseBranch env).events)
    ∧ (NewEv.setDdevStarted ∈ (runCmdNew wtName identifier baseBranch env).events →
      env.ddevStartOk = true
        ∧ NewEv.startedDDEV ∈ (runCmdNew wtName identifier baseBranch env).events)
    ∧ (NewEv.cleanupRemoveWorktree ∈ (runCmdNew wtName identifier baseBranch env).events →
      NewEv.setWorktreeCreated ∈ (runCmdNew wtName identifier baseBranch env).events)
    ∧ (NewEv.cleanupDeleteDdev ∈ (runCmdNew wtName identifier baseBranch env).events →
      NewEv.setDdevStarted ∈ (runCmdNew wtName identifier baseBranch env).events)
    ∧ (NewEv.setWorktreeCreated ∈ (runCmdNew wtName identifier baseBranch env).events →
      ((runCmdNew wtName identifier baseBranch env).events).take 2
        = [NewEv.createdWorktree, NewEv.setWorktreeCreated])
    ∧ (NewEv.setDdevStarted ∈ (runCmdNew wtName identifier baseBranch env).events →
      ∃ l1 l2, (runCmdNew wtName identifier baseBranch env).events
        = l1 ++ NewEv.startedDDEV :: NewEv.setDdevStarted :: l2) := by
  have h56 :
      (NewEv.setWorktreeCreated ∈ (runCmdNew wtName identifier baseBranch env).events →
        ((runCmdNew wtName identifier baseBranch env).events).take 2
          = [NewEv.createdWorktree, NewEv.setWorktreeCreated])
      ∧ (NewEv.setDdevStarted ∈ (runCmdNew wtName identifier baseBranch env).events →
        ∃ l1 l2, (runCmdNew wtName identifier baseBranch env).events
          = l1 ++ NewEv.startedDDEV :: NewEv.setDdevStarted :: l2) := by
    by_cases h1 : env.rootOk = true
    · by_cases h2 : (baseBranch ≠ [] ∧ env.baseVerifyOk = false)
      · simp [runCmdNew, h1, h2]
      · cases hn : findDDEVProjectName env.mainCfg env.masterCfg with
        | error e =>
          by_cases h3 : env.createWorktreeOk = true
          · simp [runCmdNew, h1, h2, hn, h3]
          · simp [runCmdNew, h1, h2, hn, h3, cleanup_mem_rw]
        | ok nm =>
          by_cases h3 : env.createWorktreeOk = true
          · by_cases h4 : (wtName = strOf "main" ∨ wtName = strOf "master")
            · by_cases h5 : env.ddevStartOk = true
              · by_cases h6 : env.dbImportOk = true
                · refine ⟨fun _ => ?_,
                    fun _ => ⟨[NewEv.createdWorktree, NewEv.setWorktreeCreated],
                      [NewEv.dbHandled, NewEv.printedSummary], ?_⟩⟩ <;>
                    simp [runCmdNew, runNewTail, h1, h2, hn, h3, if_pos h4, h5, h6]
                · refine ⟨fun _ => ?_,
                    fun _ => ⟨[NewEv.createdWorktree, NewEv.setWorktreeCreated],
                      cleanupEvents env true true, ?_⟩⟩ <;>
                    simp [runCmdNew, runNewTail, h1, h2, hn, h3, if_pos h4, h5, h6]
              · simp [runCmdNew, runNewTail, h1, h2, hn, h3, if_pos h4, h5, cleanup_mem_rw]
            · by_cases h7 : env.renameOk = true
              · by_cases h8 : env.settingsExists = true
                · by_cases h9 : env.settingsUpdateOk = true
                  · by_cases h5 : env.ddevStartOk = true
                    · by_cases h6 : env.dbImportOk = true
                      · refine ⟨fun _ => ?_,
                          fun _ => ⟨[NewEv.createdWorktree, NewEv.setWorktreeCreated,
                            NewEv.renamedProject, NewEv.updatedSettings],
                            [NewEv.dbHandled, NewEv.printedSummary], ?_⟩⟩ <;>
                          simp [runCmdNew, runNewTail, h1, h2, hn, h3, h4, h7, h8, h9, h5, h6]
                      · refine ⟨fun _ => ?_,
                          fun _ => ⟨[NewEv.createdWorktree, NewEv.setWorktreeCreated,
                            NewEv.renamedProject, NewEv.updatedSettings],
                            cleanupEvents env true true, ?_⟩⟩ <;>
                          simp [runCmdNew, runNewTail, h1, h2, hn, h3, h4, h7, h8, h9, h5, h6]
                    · simp [runCmdNew, runNewTail, h1, h2, hn, h3, h4, h7, h8, h9, h5,
                        cleanup_mem_rw]
                  · simp [runCmdNew, h1, h2, hn, h3, h4, h7, h8, h9, cleanup_mem_rw]
                · by_cases h5 : env.ddevStartOk = true
                  · by_cases h6 : env.dbImportOk = true
                    · refine ⟨fun _ => ?_,
                        fun _ => ⟨[NewEv.createdWorktree, NewEv.setWorktreeCreated,
                          NewEv.renamedProject], [NewEv.dbHandled, NewEv.printedSummary], ?_⟩⟩ <;>
                        simp [runCmdNew, runNewTail, h1, h2, hn, h3, h4, h7, h8, h5, h6]
                    · refine ⟨fun _ => ?_,
                        fun _ => ⟨[NewEv.createdWorktree, NewEv.setWorktreeCreated,
                          NewEv.renamedProject], cleanupEvents env true true, ?_⟩⟩ <;>
                        simp [runCmdNew, runNewTail, h1, h2, hn, h3, h4, h7, h8, h5, h6]
                  · simp [runCmdNew, runNewTail, h1, h2, hn, h3, h4, h7, h8, h5, cleanup_mem_rw]
              · simp [runCmdNew, h1, h2, hn, h3, h4, h7, cleanup_mem_rw]
          · simp [runCmdNew, h1, h2, hn, h3, cleanup_mem_rw]
    · simp [runCmdNew, h1]
  have h14 :
      (NewEv.setWorktreeCreated ∈ (runCmdNew wtName identifier baseBranch env).events →
        env.createWorktreeOk = true
          ∧ NewEv.createdWorktree ∈ (runCmdNew wtName identifier baseBranch env).events)
      ∧ (NewEv.setDdevStarted ∈ (runCmdNew wtName identifier baseBranch env).events →
        env.ddevStartOk = true
          ∧ NewEv.startedDDEV ∈ (runCmdNew wtName identifier baseBranch env).events)
      ∧ (NewEv.cleanupRemoveWorktree ∈ (runCmdNew wtName identifier baseBranch env).events →
        NewEv.setWorktreeCreated ∈ (runCmdNew wtName identifier baseBranch env).events)
      ∧ (NewEv.cleanupDeleteDdev ∈ (runCmdNew wtName identifier baseBranch env).events →
        NewEv.setDdevStarted ∈ (runCmdNew wtName identifier baseBranch env).events) := by
    by_cases h1 : env.rootOk = true
    · by_cases h2 : (baseBranch ≠ [] ∧ env.baseVerifyOk = false)
      · simp [runCmdNew, h1, h2]
      · cases hn : findDDEVProjectName env.mainCfg env.masterCfg with
        | error e =>
          by_cases h3 : env.createWorktreeOk = true
          · simp [runCmdNew, h1, h2, hn, h3]
          · simp [runCmdNew, h1, h2, hn, h3, cleanup_mem_rw]
        | ok nm =>
          by_cases h3 : env.createWorktreeOk = true
          · by_cases h4 : (wtName = strOf "main" ∨ wtName = strOf "master")
            · by_cases h5 : env.ddevStartOk = true
              · by_cases h6 : env.dbImportOk = true <;>
                  simp [runCmdNew, runNewTail, h1, h2, hn, h3, if_pos h4, h5, h6, cleanup_mem_rw]
              · simp [runCmdNew, runNewTail, h1, h2, hn, h3, if_pos h4, h5, cleanup_mem_rw]
            · by_cases h7 : env.renameOk = true
              · by_cases h8 : env.settingsExists = true
                · by_cases h9 : env.settingsUpdateOk = true
                  · by_cases h5 : env.ddevStartOk = true
                    · by_cases h6 : env.dbImportOk = true <;>
                        simp [runCmdNew, runNewTail, h1, h2, hn, h3, h4, h7, h8, h9, h5, h6,
                          cleanup_mem_rw]
                    · simp [runCmdNew, runNewTail, h1, h2, hn, h3, h4, h7, h8, h9, h5,
                        cleanup_mem_rw]
                  · simp [runCmdNew, h1, h2, hn, h3, h4, h7, h8, h9, cleanup_mem_rw]
                · by_cases h5 : env.ddevStartOk = true
                  · by_cases h6 : env.dbImportOk = true <;>
                      simp [runCmdNew, runNewTail, h1, h2, hn, h3, h4, h7, h8, h5, h6,
                        cleanup_mem_rw]
                  · simp [runCmdNew, runNewTail, h1, h2, hn, h3, h4, h7, h8, h5, cleanup_mem_rw]
              · simp [runCmdNew, h1, h2, hn, h3, h4, h7, cleanup_mem_rw]
          · simp [runCmdNew, h1, h2, hn, h3, cleanup_mem_rw]
    · simp [runCmdNew, h1]
  exact ⟨h14.1, h14.2.1, h14.2.2.1, h14.2.2.2, h56.1, h56.2⟩

/-- Witness for C9: in the all-success run the flag-setting events are
present together with the success of the corresponding side effects. -/
theorem c9_witness :
    (envAllOk.createWorktreeOk = true
      ∧ NewEv.createdWorktree ∈ (runCmdNew (strOf "feat") (strOf "t1") [] envAllOk).events)
    ∧ (envAllOk.ddevStartOk = true
      ∧ NewEv.startedDDEV ∈ (runCmdNew (strOf "feat") (strOf "t1") [] envAllOk).events) := by
  refine ⟨(c9_flags_set_only_after_success (strOf "feat") (strOf "t1") [] envAllOk).1 ?_,
    (c9_flags_set_only_after_success (strOf "feat") (strOf "t1") [] envAllOk).2.1 ?_⟩
  · decide
  · decide

/-- Oracle environment for one cmdInit run: whether the target directory
already exists and the outcome of each subsequent external step.
defaultBranch is the detectDefaultBranch result, empty when detection
failed. -/
structure InitEnv where
  dirExists : Bool
  mkdirOk : Bool
  cloneOk : Bool
  writeGitOk : Bool
  configOk : Bool
  fetchOk : Bool
  defaultBranch : Str
  mkSpacesOk : Bool
  mkDbOk : Bool
  wtAddOk : Bool
  ddevConfigExists : Bool
  ddevStartOk : Bool
  dbImportOk : Bool
  removeAllOk : Bool

/-- Observable events of one cmdInit run, in execution order. -/
inductive InitEv where
  | createdProjectDir
  | clonedBare
  | wroteGitFile
  | configuredFetch
  | fetched
  | createdSpacesDir
  | createdDbDir
  | createdWorktree
  | startedDDEV
  | ddevStartWarn
  | dbHandled
  | dbImportWarn
  | removedProjectDir
  | removeWarn
  | printedSummary
deriving DecidableEq, Repr

/-- The cleanupInit function, part_000 lines 322-329: removes the whole
project directory; its own failure is a warning only. -/
def cleanupInitEvents (env : InitEnv) : List InitEv :=
  InitEv.removedProjectDir :: (if env.removeAllOk then [] else [InitEv.removeWarn])

/-- Model of cmdInit, part_000 lines 119-295: fail before any side effect
when the target directory exists; create the directory; then bare clone,
.git file, fetch refspec, fetch, default-branch detection, spaces and db
directories and the first worktree each run cleanupInit and exit 1 on
failure; after the worktree exists, a DDEV start failure or a failure of
the database import is only warned about and the run still exits 0. -/
def runCmdInit (env : InitEnv) : Nat × List InitEv :=
  if env.dirExists then (1, [])
  else if !env.mkdirOk then (1, [])
  else if !env.cloneOk then (1, [InitEv.createdProjectDir] ++ cleanupInitEvents env)
  else if !env.writeGitOk then
    (1, [InitEv.createdProjectDir, InitEv.clonedBare] ++ cleanupInitEvents env)
  else if !env.configOk then
    (1, [InitEv.createdProjectDir, InitEv.clonedBare, InitEv.wroteGitFile]
      ++ cleanupInitEvents env)
  else if !env.fetchOk then
    (1, [InitEv.createdProjectDir, InitEv.clonedBare, InitEv.wroteGitFile,
      InitEv.configuredFetch] ++ cleanupInitEvents env)
  else if env.defaultBranch = [] then
    (1, [InitEv.createdProjectDir, InitEv.clonedBare, InitEv.wroteGitFile,
      InitEv.configuredFetch, InitEv.fetched] ++ cleanupInitEvents env)
  else if !env.mkSpacesOk then
    (1, [InitEv.createdProjectDir, InitEv.clonedBare, InitEv.wroteGitFile,
      InitEv.configuredFetch, InitEv.fetched] ++ cleanupInitEvents env)
  else if !env.mkDbOk then
    (1, [InitEv.createdProjectDir, InitEv.clonedBare, InitEv.wroteGitFile,
      InitEv.configuredFetch, InitEv.fetched, InitEv.createdSpacesDir]
      ++ cleanupInitEvents env)
  else if !env.wtAddOk then
    (1, [InitEv.createdProjectDir, InitEv.clonedBare, InitEv.wroteGitFile,
      InitEv.configuredFetch, InitEv.fetched, InitEv.createdSpacesDir, InitEv.createdDbDir]
      ++ cleanupInitEvents env)
  else
    let pre8 := [InitEv.createdProjectDir, InitEv.clonedBare, InitEv.wroteGitFile,
      InitEv.configuredFetch, InitEv.fetched, InitEv.createdSpacesDir, InitEv.createdDbDir,
      InitEv.createdWorktree]
    if env.ddevConfigExists then
      if !env.ddevStartOk then (0, pre8 ++ [InitEv.ddevStartWarn, InitEv.printedSummary])
      else if !env.dbImportOk then
        (0, pre8 ++ [InitEv.startedDDEV, InitEv.dbImportWarn, InitEv.printedSummary])
      else (0, pre8 ++ [InitEv.startedDDEV, InitEv.dbHandled, InitEv.printedSummary])
    else (0, pre8 ++ [InitEv.printedSummary])

/-- A cmdInit oracle in which everything succeeds except the DDEV start. -/
def initEnvDdevFail : InitEnv :=
  ⟨false, true, true, true, true, true, strOf "main", true, true, true, true, false, true, true⟩

/-- A cmdInit oracle in which the target directory already exists. -/
def initEnvDirExists : InitEnv :=
  ⟨true, true, true, true, true, true, strOf "main", true, true, true, true, true, true, true⟩

/-- A cmdInit oracle in which the bare clone fails. -/
def initEnvCloneFail : InitEnv :=
  ⟨false, true, false, true, true, true, strOf "main", true, true, true, true, true, true, true⟩

/-- Claim C3 as stated is false on the code: a run in which every step
succeeds except the DDEV start fails AFTER the project directory was
created, yet the project directory is not removed and the run exits 0 —
cmdInit treats DDEV and database failures as warnings, not as
bootstrap failures. -/
theorem c3_counterexample :
    (runCmdInit initEnvDdevFail).1 = 0
    ∧ InitEv.ddevStartWarn ∈ (runCmdInit initEnvDdevFail).2
    ∧ InitEv.removedProjectDir ∉ (runCmdInit initEnvDdevFail).2 := by
  decide

/-- Claim C3, amended: cmdInit fails before creating anything when the
target directory exists (never overwriting); once the directory has been
created, any fatal failure from the bare clone up to and including the
first worktree creation removes the entire project directory and exits
non-zero (and exit is non-zero exactly when the directory was removed);
a DDEV start failure or a database import failure after the worktree
exists is a warning only: the directory is kept and the exit code is
0. -/
theorem c3_init_cleanup_amended (env : InitEnv) :
    (env.dirExists = true → runCmdInit env = (1, []))
    ∧ (env.dirExists = false → env.mkdirOk = true →
        ((runCmdInit env).1 ≠ 0 ↔ InitEv.removedProjectDir ∈ (runCmdInit env).2))
    ∧ (env.dirExists = false → env.mkdirOk = true →
        ¬(env.cloneOk = true ∧ env.writeGitOk = true ∧ env.configOk = true
          ∧ env.fetchOk = true ∧ env.defaultBranch ≠ [] ∧ env.mkSpacesOk = true
          ∧ env.mkDbOk = true ∧ env.wtAddOk = true) →
        (runCmdInit env).1 = 1 ∧ InitEv.removedProjectDir ∈ (runCmdInit env).2)
    ∧ (env.dirExists = false → env.mkdirOk = true → env.cloneOk = true →
        env.writeGitOk = true → env.configOk = true → env.fetchOk = true →
        env.defaultBranch ≠ [] → env.mkSpacesOk = true → env.mkDbOk = true →
        env.wtAddOk = true → env.ddevConfigExists = true → env.ddevStartOk = false →
        (runCmdInit env).1 = 0 ∧ InitEv.ddevStartWarn ∈ (runCmdInit env).2
          ∧ InitEv.removedProjectDir ∉ (runCmdInit env).2)
    ∧ (env.dirExists = false → env.mkdirOk = true → env.cloneOk = true →
        env.writeGitOk = true → env.configOk = true → env.fetchOk = true →
        env.defaultBranch ≠ [] → env.mkSpacesOk = true → env.mkDbOk = true →
        env.wtAddOk = true → env.ddevConfigExists = true → env.ddevStartOk = true →
        env.dbImportOk = false →
        (runCmdInit env).1 = 0 ∧ InitEv.dbImportWarn ∈ (runCmdInit env).2
          ∧ InitEv.removedProjectDir ∉ (runCmdInit env).2) := by
  obtain ⟨de, mk, cl, wg, co, fe, db, ms, md, wa, dce, dso, dbo, ra⟩ := env
  refine ⟨?_, ?_, ?_, ?_, ?_⟩
  · rintro rfl
    simp [runCmdInit]
  · rintro rfl rfl
    cases cl with
    | false => simp [runCmdInit, cleanupInitEvents]
    | true =>
    cases wg with
    | false => simp [runCmdInit, cleanupInitEvents]
    | true =>
    cases co with
    | false => simp [runCmdInit, cleanupInitEvents]
    | true =>
    cases fe with
    | false => simp [runCmdInit, cleanupInitEvents]
    | true =>
    by_cases hdb : db = []
    · simp [runCmdInit, cleanupInitEvents, hdb]
    · cases ms with
      | false => simp [runCmdInit, cleanupInitEvents, hdb]
      | true =>
      cases md with
      | false => simp [runCmdInit, cleanupInitEvents, hdb]
      | true =>
      cases wa with
      | false => simp [runCmdInit, cleanupInitEvents, hdb]
      | true =>
      cases dce with
      | false => simp [runCmdInit, cleanupInitEvents, hdb]
      | true =>
      cases dso with
      | false => simp [runCmdInit, cleanupInitEvents, hdb]
      | true =>
      cases dbo with
      | false => simp [runCmdInit, cleanupInitEvents, hdb]
      | true => simp [runCmdInit, cleanupInitEvents, hdb]
  · rintro rfl rfl hfail
    cases cl with
    | false => simp [runCmdInit, cleanupInitEvents]
    | true =>
    cases wg with
    | false => simp [runCmdInit, cleanupInitEvents]
    | true =>
    cases co with
    | false => simp [runCmdInit, cleanupInitEvents]
    | true =>
    cases fe with
    | false => simp [runCmdInit, cleanupInitEvents]
    | true =>
    by_cases hdb : db = []
    · simp [runCmdInit, cleanupInitEvents, hdb]
    · cases ms with
      | false => simp [runCmdInit, cleanupInitEvents, hdb]
      | true =>
      cases md with
      | false => simp [runCmdInit, cleanupInitEvents, hdb]
      | true =>
      cases wa with
      | false => simp [runCmdInit, cleanupInitEvents, hdb]
      | true => exact absurd ⟨rfl, rfl, rfl, rfl, hdb, rfl, rfl, rfl⟩ hfail
  · rintro rfl rfl rfl rfl rfl rfl hdb rfl rfl rfl rfl rfl
    simp [runCmdInit, hdb]
  · rintro rfl rfl rfl rfl rfl rfl hdb rfl rfl rfl rfl rfl rfl
    simp [runCmdInit, hdb]

/-- A cmdInit oracle in which everything succeeds except the database
import. -/
def initEnvDbFail : InitEnv :=
  ⟨false, true, true, true, true, true, strOf "main", true, true, true, true, true, false, true⟩

/-- Witness for C3 (amended): with the directory already present the run
is (1, []); a failing clone exits 1 and removes the project directory; a
failing database import after a started DDEV warns, keeps the directory
and exits 0. -/
theorem c3_witness :
    runCmdInit initEnvDirExists = (1, [])
    ∧ ((runCmdInit initEnvCloneFail).1 = 1
        ∧ InitEv.removedProjectDir ∈ (runCmdInit initEnvCloneFail).2)
    ∧ ((runCmdInit initEnvDbFail).1 = 0
        ∧ InitEv.dbImportWarn ∈ (runCmdInit initEnvDbFail).2
        ∧ InitEv.removedProjectDir ∉ (runCmdInit initEnvDbFail).2) := by
  refine ⟨(c3_init_cleanup_amended initEnvDirExists).1 rfl, ?_, ?_⟩
  · exact (c3_init_cleanup_amended initEnvCloneFail).2.2.1 rfl rfl (by decide)
  · exact (c3_init_cleanup_amended initEnvDbFail).2.2.2.2 rfl rfl rfl rfl rfl rfl
      (by decide) rfl rfl rfl rfl rfl rfl
